import Mathlib

/-!
Verification of the mesh signaling and peer-connection coordination subsystem
of the supichat repository.

The development shallowly embeds:
* the Signaling Relay (`src/services/signaling/server.js`): room membership
  bookkeeping and envelope routing over socket.io rooms, and
* the Connection Coordinator (`src/unnamed/part_020`, the room page client):
  the per-peer `RTCPeerConnection` map, roster reconciliation and the
  local-media lifecycle.

Handlers are modelled as pure functions from state (plus the event payload)
to a new state together with the list of emissions the handler performs;
each socket.io event handler runs as one atomic step of the single-threaded
event loop.
-/

set_option autoImplicit false

namespace Supichat

/-- socket.io connection identifiers (also used as room names: every socket
is a member of the room named by its own id). -/
abbrev SocketId := String

/-- Association-list lookup keyed by `SocketId`. -/
def alookup {β : Type} : List (SocketId × β) → SocketId → Option β
  | [], _ => none
  | (k, v) :: rest, x => if k = x then some v else alookup rest x

/-- Remove every entry for a key (models `Map.delete`). -/
def removeKey {β : Type} (m : List (SocketId × β)) (x : SocketId) : List (SocketId × β) :=
  m.filter (fun kv => decide (kv.fst ≠ x))

/-! ## Signaling Relay (src/services/signaling/server.js) -/

/-- The `socket.data` record written by the `join` and `state` handlers. -/
structure SocketData where
  name : Option String := none
  lang : Option String := none
  micEnabled : Option Bool := none
  camEnabled : Option Bool := none
deriving DecidableEq

/-- Relay-side state: connected sockets, the adapter's room registry
(`io.sockets.adapter.rooms`, personal rooms included), and per-socket data. -/
structure RelayState where
  connected : List SocketId := []
  rooms : List (String × List SocketId) := []
  sockData : List (SocketId × SocketData) := []
deriving DecidableEq

/-- Members of a room (`rooms.get(r)`, absent room gives the empty set). -/
def lookupRoom : List (String × List SocketId) → String → List SocketId
  | [], _ => []
  | (k, ms) :: rest, r => if k = r then ms else lookupRoom rest r

def roomMembers (st : RelayState) (r : String) : List SocketId :=
  lookupRoom st.rooms r

/-- `socket.join(r)`: insert `x` into room `r`, creating the room on first
insert; rooms are sets, so a present member is not duplicated. -/
def addToRoom : List (String × List SocketId) → String → SocketId → List (String × List SocketId)
  | [], r, x => [(r, [x])]
  | (k, ms) :: rest, r, x =>
    if k = r then (k, if x ∈ ms then ms else ms ++ [x]) :: rest
    else (k, ms) :: addToRoom rest r x

/-- `socket.data` of a socket (fields default to `undefined`). -/
def dataOf (st : RelayState) (s : SocketId) : SocketData :=
  (alookup st.sockData s).getD {}

/-- Overwrite a socket's data record. -/
def setData (st : RelayState) (s : SocketId) (d : SocketData) : RelayState :=
  { st with sockData := (s, d) :: removeKey st.sockData s }

/-- A new transport connection: socket.io registers the socket and puts it
in the room named by its own id. -/
def onConnect (st : RelayState) (s : SocketId) : RelayState :=
  { st with connected := st.connected ++ [s], rooms := addToRoom st.rooms s s }

/-- One entry of the `peers` roster snapshot sent to a joiner. -/
structure PeerInfo where
  id : SocketId
  name : Option String := none
  lang : Option String := none
  micEnabled : Option Bool := none
  camEnabled : Option Bool := none
deriving DecidableEq

/-- The roster entry built for socket `id` from the relay's current data. -/
def peerInfoOf (st : RelayState) (id : SocketId) : PeerInfo :=
  let d := dataOf st id
  { id := id, name := d.name, lang := d.lang
    micEnabled := d.micEnabled, camEnabled := d.camEnabled }

/-- Result of the relay's `join` handler: the new state, the roster snapshot
emitted to the caller, and the recipients of the `peer-joined` notice. -/
structure JoinResult where
  state : RelayState
  roster : List PeerInfo
  noticeTargets : List SocketId
deriving DecidableEq

/-- `socket.on('join')`: store name/lang in `socket.data`, join the room,
emit the roster of all other room members to the caller, then broadcast the
join notice to the room except the sender (`socket.to(roomId)`). -/
def handleJoin (st : RelayState) (sock : SocketId) (roomId : String)
    (name lang : Option String) : JoinResult :=
  let d := dataOf st sock
  let st1 := setData st sock { d with name := name, lang := lang }
  let st2 := { st1 with rooms := addToRoom st1.rooms roomId sock }
  let room := roomMembers st2 roomId
  let others := room.filter (fun id => decide (id ≠ sock))
  { state := st2
    roster := others.map (peerInfoOf st2)
    noticeTargets := others }

/-- `socket.on('state')`: record the flags in `socket.data` and broadcast
`peer-state` to the room except the sender. -/
def handleState (st : RelayState) (sock : SocketId) (roomId : String)
    (micEnabled camEnabled : Bool) : RelayState × List SocketId :=
  let d := dataOf st sock
  let st1 := setData st sock { d with micEnabled := some micEnabled, camEnabled := some camEnabled }
  (st1, (roomMembers st1 roomId).filter (fun id => decide (id ≠ sock)))

/-- The delivery computed by the relay's `signal` handler. -/
structure SignalOut where
  targets : List SocketId
  fromId : SocketId
  data : Nat
deriving DecidableEq

/-- `socket.on('signal')`: `io.to(targetId).emit('signal', {from, data})` —
delivery to every member of the room named `targetId`; the relay state is
untouched and the payload is forwarded opaquely. -/
def handleSignal (st : RelayState) (sock : SocketId) (targetId : String)
    (d : Nat) : RelayState × SignalOut :=
  (st, { targets := roomMembers st targetId, fromId := sock, data := d })

/-- The delivery computed by the relay's `chat` handler. -/
structure ChatOut where
  targets : List SocketId
  fromId : SocketId
  name : Option String
  msg : String
  lang : String
deriving DecidableEq

/-- `socket.on('chat')`: `socket.to(roomId)` broadcast — every member of the
room except the sender. -/
def handleChat (st : RelayState) (sock : SocketId) (roomId : String)
    (msg lang : String) : RelayState × ChatOut :=
  (st, { targets := (roomMembers st roomId).filter (fun id => decide (id ≠ sock))
         fromId := sock, name := (dataOf st sock).name, msg := msg, lang := lang })

/-! ## Connection Coordinator (src/unnamed/part_020) -/

inductive SdpType where
  | offer
  | answer
deriving DecidableEq

/-- A session description; only its type is relevant to the coordination
protocol (the body is opaque browser data). -/
structure SdpDesc where
  sdpType : SdpType
deriving DecidableEq

def offerDesc : SdpDesc := ⟨SdpType.offer⟩
def answerDesc : SdpDesc := ⟨SdpType.answer⟩

/-- The body of a signal envelope: either `{sdp}` or `{candidate}`. -/
inductive SigBody where
  | sdp (d : SdpDesc)
  | candidate (c : Nat)
deriving DecidableEq

inductive TrackKind where
  | audio
  | video
deriving DecidableEq

/-- A local media track with its mutable `enabled` flag. -/
structure MediaTrack where
  kind : TrackKind
  enabled : Bool
deriving DecidableEq

/-- An `RTCPeerConnection` as the coordinator observes it: the pending local
and remote descriptions, the candidates successfully applied via
`addIceCandidate`, the local tracks added to it, and whether it was closed.
Per WebRTC, `addIceCandidate` fails while `remoteDescription` is unset. -/
structure PC where
  localDesc : Option SdpDesc := none
  remoteDesc : Option SdpDesc := none
  addedCandidates : List Nat := []
  localTracks : List MediaTrack := []
  closed : Bool := false
deriving DecidableEq

/-- A roster entry held by the coordinator (`RemotePeer` in the source). -/
structure RemotePeer where
  id : SocketId
  name : Option String := none
  stream : Option Nat := none
  micEnabled : Option Bool := none
  camEnabled : Option Bool := none
  lang : Option String := none
deriving DecidableEq

/-- Emissions the coordinator performs on its socket. -/
inductive ClientEmit where
  | sigOut (targetId : SocketId) (body : SigBody)
  | stateOut (micEnabled camEnabled : Bool)
  | joinOut (roomId : String) (name lang : String)
deriving DecidableEq

/-- Coordinator state: the `pcMap` of sessions, the `remoteStreams` map, the
`peers` roster, the local stream and flags, and the join/ready flags.
`closedLog` records the ids whose connection object had `close()` called. -/
structure CoordState where
  pcMap : List (SocketId × PC) := []
  remoteStreams : List (SocketId × Nat) := []
  peers : List RemotePeer := []
  localStream : Option (List MediaTrack) := none
  localMicEnabled : Bool := true
  localCamEnabled : Bool := true
  ready : Bool := false
  joined : Bool := false
  permissionError : Option String := none
  closedLog : List SocketId := []
deriving DecidableEq

/-- `createPCForPeer`: a fresh connection; every track of the local stream is
added to it (`if (localStream) localStream.getTracks().forEach(addTrack)`). -/
def createPCForPeer (localStream : Option (List MediaTrack)) : PC :=
  { localTracks := match localStream with | none => [] | some ts => ts }

/-- Lazily construct the session for `pid` if the map has none. -/
def ensurePC (st : CoordState) (pid : SocketId) : CoordState :=
  match alookup st.pcMap pid with
  | some _ => st
  | none => { st with pcMap := st.pcMap ++ [(pid, createPCForPeer st.localStream)] }

/-- Update the session stored for `pid` in place. -/
def updatePC (m : List (SocketId × PC)) (x : SocketId) (f : PC → PC) :
    List (SocketId × PC) :=
  m.map (fun kv => if kv.fst = x then (kv.fst, f kv.snd) else kv)

def setLocalDescFor (st : CoordState) (pid : SocketId) (d : SdpDesc) : CoordState :=
  { st with pcMap := updatePC st.pcMap pid (fun pc => { pc with localDesc := some d }) }

def setRemoteDescFor (st : CoordState) (pid : SocketId) (d : SdpDesc) : CoordState :=
  { st with pcMap := updatePC st.pcMap pid (fun pc => { pc with remoteDesc := some d }) }

def addCandidateFor (st : CoordState) (pid : SocketId) (c : Nat) : CoordState :=
  let f := fun (pc : PC) => { pc with addedCandidates := pc.addedCandidates ++ [c] }
  { st with pcMap := updatePC st.pcMap pid f }

/-- `connectToPeer(peerId, _, isCaller)`: ensure the session exists; a caller
additionally builds an offer, stores it as the local description and emits
the offer envelope — unconditionally, even when the session already existed. -/
def connectToPeer (st : CoordState) (pid : SocketId) (isCaller : Bool) :
    CoordState × List ClientEmit :=
  let st1 := ensurePC st pid
  if isCaller then
    (setLocalDescFor st1 pid offerDesc, [ClientEmit.sigOut pid (SigBody.sdp offerDesc)])
  else (st1, [])

/-- The `for (const it of list) connectToPeer(it.id, it.name, false)` loop of
the `peers` handler. -/
def connectAll (st : CoordState) (ids : List SocketId) : CoordState × List ClientEmit :=
  match ids with
  | [] => (st, [])
  | id :: rest =>
    let r := connectToPeer st id false
    let r2 := connectAll r.fst rest
    (r2.fst, r.snd ++ r2.snd)

/-- The roster merge of the `peers` handler: entries absent from the previous
roster (the `existing` set is computed once from `prev`) are appended. -/
def mergeRoster (prev : List RemotePeer) (list : List PeerInfo) : List RemotePeer :=
  prev ++ (list.filter (fun it => !(prev.any (fun pe => decide (pe.id = it.id))))).map
    (fun it => { id := it.id, name := it.name, lang := it.lang })

/-- `socket.on('peers')`: merge the snapshot into the roster, then prepare a
(responder-role, offerless) connection toward every listed member. -/
def handlePeers (st : CoordState) (list : List PeerInfo) : CoordState × List ClientEmit :=
  let st1 := { st with peers := mergeRoster st.peers list }
  connectAll st1 (list.map PeerInfo.id)

/-- `socket.on('peer-joined')`: insert the newcomer into the roster if absent,
then `connectToPeer(id, name, true)` — the initiator side. -/
def handlePeerJoined (st : CoordState) (id : SocketId) (name : Option String) :
    CoordState × List ClientEmit :=
  let newPeers :=
    if st.peers.any (fun pe => decide (pe.id = id)) then st.peers
    else st.peers ++ [{ id := id, name := name }]
  connectToPeer { st with peers := newPeers } id true

/-- `socket.on('signal')`: get-or-create the session; an sdp sets the remote
description and an offer additionally produces and sends an answer; a
candidate is applied immediately via `addIceCandidate` inside
`try { ... } catch {}` — if no remote description is set the call fails and
the failure (hence the candidate) is silently swallowed. -/
def handleSignalIn (st : CoordState) (fromId : SocketId) (body : SigBody) :
    CoordState × List ClientEmit :=
  let st1 := ensurePC st fromId
  match body with
  | SigBody.sdp d =>
    let st2 := setRemoteDescFor st1 fromId d
    if d.sdpType = SdpType.offer then
      (setLocalDescFor st2 fromId answerDesc, [ClientEmit.sigOut fromId (SigBody.sdp answerDesc)])
    else (st2, [])
  | SigBody.candidate c =>
    match alookup st1.pcMap fromId with
    | some pc => if pc.remoteDesc.isSome then (addCandidateFor st1 fromId c, []) else (st1, [])
    | none => (st1, [])

/-- `socket.on('peer-left')`: close the connection object if present, drop it
from the session map, release the remote stream, filter the roster entry out
and forget the local mute flag — all inside one event-queue step. -/
def handlePeerLeft (st : CoordState) (id : SocketId) : CoordState :=
  { st with
    closedLog := match alookup st.pcMap id with
      | some _ => st.closedLog ++ [id]
      | none => st.closedLog
    pcMap := removeKey st.pcMap id
    remoteStreams := removeKey st.remoteStreams id
    peers := st.peers.filter (fun pe => decide (pe.id ≠ id)) }

/-- `socket.on('peer-state')`: maps a matching roster entry to
`{ ...pe, name: pe.name, stream: pe.stream }` — an identical copy; the
broadcast mic/cam values are not stored ("reserved here for future display"). -/
def handlePeerState (st : CoordState) (id : SocketId) (micEnabled camEnabled : Bool) :
    CoordState :=
  { st with peers := st.peers.map (fun pe =>
      if pe.id = id then { pe with name := pe.name, stream := pe.stream } else pe) }

/-- The `getUserMedia` catch handler: surface a recoverable permission error,
clear the local stream and flags, and still reach the ready state. -/
def onMediaError (st : CoordState) : CoordState :=
  { st with
    permissionError := some "Camera/Microphone permission denied. You can still join without devices."
    localStream := none
    localMicEnabled := false
    localCamEnabled := false
    ready := true }

/-- `joinRoom()`: requires a nonempty name and language (JS falsiness of the
empty string), then emits `join` and marks the coordinator joined. -/
def joinRoom (st : CoordState) (roomId name lang : String) :
    CoordState × List ClientEmit :=
  if name = "" ∨ lang = "" then (st, [])
  else ({ st with joined := true }, [ClientEmit.joinOut roomId name lang])

/-- First track of the given kind (`getAudioTracks()[0]` / `getVideoTracks()[0]`). -/
def firstTrackOfKind (ts : List MediaTrack) (k : TrackKind) : Option MediaTrack :=
  (ts.filter (fun t => decide (t.kind = k))).head?

/-- `toggleTrack(kind)`: flip the `enabled` flag of every matching track, read
the flag back from track 0 (`Boolean(t?.enabled ?? true)`) into the React
state setter, then emit `state` with the `localMicEnabled`/`localCamEnabled`
variables captured by the closure — the values from before the toggle. -/
def toggleTrack (st : CoordState) (kind : TrackKind) : CoordState × List ClientEmit :=
  match st.localStream with
  | none => (st, [])
  | some ts =>
    let ts2 := ts.map (fun t => if t.kind = kind then { t with enabled := !t.enabled } else t)
    let flag := match firstTrackOfKind ts2 kind with
      | some t => t.enabled
      | none => true
    let st2 := match kind with
      | TrackKind.audio => { st with localStream := some ts2, localMicEnabled := flag }
      | TrackKind.video => { st with localStream := some ts2, localCamEnabled := flag }
    (st2, [ClientEmit.stateOut st.localMicEnabled st.localCamEnabled])

/-! ## Closed-system join protocol

One relay plus one coordinator per joined participant, driven by join events
only. A join is processed exactly as the code routes it: the relay's `join`
handler produces the roster snapshot (delivered to the joiner's `peers`
handler) and the `peer-joined` notice (delivered to every notice target's
`peer-joined` handler). Joins are serialized by the relay's single-threaded
event loop, so an interleaving of joins is a list of joiner ids. -/

/-- Offers found among a coordinator's emissions, as (sender, target) pairs. -/
def offersOf (sender : SocketId) (es : List ClientEmit) : List (SocketId × SocketId) :=
  es.filterMap (fun e => match e with
    | ClientEmit.sigOut t (SigBody.sdp d) =>
      if d.sdpType = SdpType.offer then some (sender, t) else none
    | _ => none)

structure World where
  relay : RelayState := {}
  coords : List (SocketId × CoordState) := []
  offerLog : List (SocketId × SocketId) := []
deriving DecidableEq

/-- Deliver the `peer-joined` notice for `p` to every coordinator the relay
addressed, collecting the offers their handlers emit. -/
def stepMembers (coords : List (SocketId × CoordState)) (targets : List SocketId)
    (p : SocketId) : List (SocketId × CoordState) × List (SocketId × SocketId) :=
  match coords with
  | [] => ([], [])
  | (m, cm) :: rest =>
    let hd :=
      if m ∈ targets then
        let r := handlePeerJoined cm p none
        ((m, r.fst), offersOf m r.snd)
      else ((m, cm), ([] : List (SocketId × SocketId)))
    let tl := stepMembers rest targets p
    (hd.fst :: tl.fst, hd.snd ++ tl.snd)

/-- A participant `p` joins room `roomId`: the socket connects, the relay
processes `join`, the joiner's fresh coordinator processes the roster
snapshot, and every pre-existing member processes the join notice. -/
def processJoin (roomId : String) (w : World) (p : SocketId) : World :=
  let jr := handleJoin (onConnect w.relay p) p roomId none none
  let joiner := handlePeers {} jr.roster
  let ms := stepMembers w.coords jr.noticeTargets p
  { relay := jr.state
    coords := ms.fst ++ [(p, joiner.fst)]
    offerLog := w.offerLog ++ offersOf p joiner.snd ++ ms.snd }

def runJoinsFrom (roomId : String) (w : World) (L : List SocketId) : World :=
  L.foldl (processJoin roomId) w

/-- Run an interleaving of joins from the empty system. -/
def runJoins (roomId : String) (L : List SocketId) : World :=
  runJoinsFrom roomId {} L

/-- Number of offers logged for directed pair (x, y). -/
def pairCount (log : List (SocketId × SocketId)) (x y : SocketId) : Nat :=
  log.countP (fun q => decide (q = (x, y)))

/-- `a` occurs in `L` strictly before an occurrence of `b`. -/
def beforeIn (L : List SocketId) (a b : SocketId) : Bool :=
  match L with
  | [] => false
  | x :: xs => if x = a then decide (b ∈ xs) else beforeIn xs a b

/-- The offers a join-only run generates, computed directly from the join
order: when `p` joins, each current member emits one offer toward `p`. -/
def offersSpec (ms : List SocketId) (L : List SocketId) : List (SocketId × SocketId) :=
  match L with
  | [] => []
  | p :: rest => ms.map (fun m => (m, p)) ++ offersSpec (ms ++ [p]) rest

/-! ## Concrete states used as test inputs -/

/-- A relay reached by: sockets a and b connect, then a joins room "x". -/
def relayRoomX : RelayState :=
  (handleJoin (onConnect (onConnect {} "a") "b") "a" "x" (some "Alice") (some "en")).state

/-- A coordinator whose roster lists peer a with mic and cam off. -/
def coordMicOff : CoordState :=
  { peers := [{ id := "a", name := some "Alice",
                micEnabled := some false, camEnabled := some false }] }

/-- A coordinator holding a session, a remote stream and roster entries for p. -/
def coordWithP : CoordState :=
  { pcMap := [("p", {})], remoteStreams := [("p", 5)]
    peers := [{ id := "p", name := some "Pat" }, { id := "q" }] }

/-- A relay in which "r" is a room with members a and b. -/
def relayAB : RelayState :=
  ((handleJoin (onConnect (onConnect {} "a") "b") "a" "r" (some "Alice") (some "en")).state
    |> fun st => (handleJoin st "b" "r" (some "Bob") (some "fr")).state)

/-- A coordinator with one enabled local audio track and one enabled video track. -/
def coordWithTracks : CoordState :=
  { localStream := some [⟨TrackKind.audio, true⟩, ⟨TrackKind.video, true⟩]
    localMicEnabled := true, localCamEnabled := true, ready := true }

/-- Coordinator after a candidate from peer a arrived before any description. -/
def afterEarlyCand : CoordState := (handleSignalIn {} "a" (SigBody.candidate 7)).fst

/-- ... then a's offer arrives: the remote description is set and an answer sent. -/
def afterOffer : CoordState × List ClientEmit :=
  handleSignalIn afterEarlyCand "a" (SigBody.sdp offerDesc)

/-- ... then three candidates arrive once the remote description is set. -/
def afterLateCands : CoordState :=
  (handleSignalIn (handleSignalIn (handleSignalIn afterOffer.fst "a"
    (SigBody.candidate 1)).fst "a" (SigBody.candidate 2)).fst "a" (SigBody.candidate 3)).fst

/-- A fresh coordinator that received the join notice for p once ... -/
def joinedOnce : CoordState × List ClientEmit := handlePeerJoined {} "p" none

/-- ... and then received the very same join notice a second time. -/
def joinedTwice : CoordState × List ClientEmit := handlePeerJoined joinedOnce.fst "p" none

/-! ## Association-list and session-map lemmas -/

theorem alookup_append_some {β : Type} (m m' : List (SocketId × β)) (x : SocketId) (v : β)
    (h : alookup m x = some v) : alookup (m ++ m') x = some v := by
  induction m with
  | nil => simp [alookup] at h
  | cons kv rest ih =>
    obtain ⟨k, w⟩ := kv
    by_cases hk : k = x
    · simp [alookup, hk] at h ⊢; exact h
    · simp [alookup, hk] at h ⊢; exact ih h

theorem alookup_append_none {β : Type} (m m' : List (SocketId × β)) (x : SocketId)
    (h : alookup m x = none) : alookup (m ++ m') x = alookup m' x := by
  induction m with
  | nil => simp [alookup]
  | cons kv rest ih =>
    obtain ⟨k, w⟩ := kv
    by_cases hk : k = x
    · simp [alookup, hk] at h
    · simp [alookup, hk] at h ⊢; exact ih h

theorem alookup_updatePC (m : List (SocketId × PC)) (x y : SocketId) (f : PC → PC) :
    alookup (updatePC m y f) x = if y = x then (alookup m x).map f else alookup m x := by
  induction m with
  | nil => by_cases h : y = x <;> simp [updatePC, alookup, h]
  | cons kv rest ih =>
    obtain ⟨k, w⟩ := kv
    have head : updatePC ((k, w) :: rest) y f
        = (k, if k = y then f w else w) :: updatePC rest y f := by
      by_cases hky : k = y <;> simp [updatePC, hky]
    rw [head]
    by_cases hkx : k = x
    · subst hkx
      by_cases hyk : y = k
      · subst hyk; simp [alookup]
      · have hky : ¬ k = y := fun h => hyk h.symm
        simp [alookup, hyk, hky]
    · simp [alookup, hkx, ih]

theorem updatePC_keys (m : List (SocketId × PC)) (y : SocketId) (f : PC → PC) :
    (updatePC m y f).map Prod.fst = m.map Prod.fst := by
  induction m with
  | nil => rfl
  | cons kv rest ih =>
    obtain ⟨k, w⟩ := kv
    by_cases hk : k = y <;> simp [updatePC, hk] at ih ⊢ <;> simpa [updatePC] using ih

theorem alookup_removeKey_self {β : Type} (m : List (SocketId × β)) (x : SocketId) :
    alookup (removeKey m x) x = none := by
  induction m with
  | nil => rfl
  | cons kv rest ih =>
    obtain ⟨k, w⟩ := kv
    by_cases hk : k = x <;> simp [removeKey, alookup, hk] at ih ⊢ <;>
      simpa [removeKey] using ih

theorem ensurePC_of_isSome (st : CoordState) (pid : SocketId)
    (h : (alookup st.pcMap pid).isSome) : ensurePC st pid = st := by
  unfold ensurePC
  cases hl : alookup st.pcMap pid with
  | some pc => rfl
  | none => rw [hl] at h; simp at h

theorem alookup_ensurePC_self (st : CoordState) (pid : SocketId) :
    (alookup (ensurePC st pid).pcMap pid).isSome := by
  unfold ensurePC
  cases hl : alookup st.pcMap pid with
  | some pc => simp [hl]
  | none => simp [alookup_append_none _ _ _ hl, alookup]

theorem ensurePC_mono (st : CoordState) (pid x : SocketId)
    (h : (alookup st.pcMap x).isSome) : (alookup (ensurePC st pid).pcMap x).isSome := by
  unfold ensurePC
  cases hl : alookup st.pcMap pid with
  | some pc => simpa using h
  | none =>
    obtain ⟨v, hv⟩ := Option.isSome_iff_exists.mp h
    simp [alookup_append_some _ _ _ _ hv]

theorem ensurePC_keys (st : CoordState) (pid : SocketId) :
    (ensurePC st pid).pcMap.map Prod.fst =
      if (alookup st.pcMap pid).isSome then st.pcMap.map Prod.fst
      else st.pcMap.map Prod.fst ++ [pid] := by
  unfold ensurePC
  cases hl : alookup st.pcMap pid with
  | some pc => simp [hl]
  | none => simp [hl]

theorem connectToPeer_lookup_isSome (st : CoordState) (pid : SocketId) (c : Bool) :
    (alookup (connectToPeer st pid c).fst.pcMap pid).isSome := by
  cases c with
  | false => simpa [connectToPeer] using alookup_ensurePC_self st pid
  | true =>
    simpa [connectToPeer, setLocalDescFor, alookup_updatePC] using
      alookup_ensurePC_self st pid

theorem connectToPeer_mono (st : CoordState) (pid x : SocketId) (c : Bool)
    (h : (alookup st.pcMap x).isSome) :
    (alookup (connectToPeer st pid c).fst.pcMap x).isSome := by
  cases c with
  | false => simpa [connectToPeer] using ensurePC_mono st pid x h
  | true =>
    by_cases hpx : pid = x
    · simpa [connectToPeer, setLocalDescFor, alookup_updatePC, hpx] using
        ensurePC_mono st pid x h
    · simpa [connectToPeer, setLocalDescFor, alookup_updatePC, hpx] using
        ensurePC_mono st pid x h

theorem connectAll_snd (st : CoordState) (ids : List SocketId) :
    (connectAll st ids).snd = [] := by
  induction ids generalizing st with
  | nil => rfl
  | cons id rest ih => simp [connectAll, connectToPeer, ih]

theorem connectAll_lookup_isSome (st : CoordState) (ids : List SocketId) (x : SocketId)
    (h : x ∈ ids ∨ (alookup st.pcMap x).isSome) :
    (alookup (connectAll st ids).fst.pcMap x).isSome := by
  induction ids generalizing st with
  | nil =>
    rcases h with h | h
    · simp at h
    · simpa [connectAll] using h
  | cons id rest ih =>
    simp only [connectAll]
    rcases h with h | h
    · rcases List.mem_cons.mp h with h | h
      · exact ih _ (Or.inr (h ▸ connectToPeer_lookup_isSome st id false))
      · exact ih _ (Or.inl h)
    · exact ih _ (Or.inr (connectToPeer_mono st id x false h))

theorem handlePeers_snd (st : CoordState) (list : List PeerInfo) :
    (handlePeers st list).snd = [] := by
  simp [handlePeers, connectAll_snd]

theorem handlePeers_lookup (st : CoordState) (list : List PeerInfo) (x : SocketId)
    (h : x ∈ list.map PeerInfo.id) :
    (alookup (handlePeers st list).fst.pcMap x).isSome := by
  exact connectAll_lookup_isSome _ _ _ (Or.inl h)

theorem handlePeerJoined_snd (st : CoordState) (id : SocketId) (name : Option String) :
    (handlePeerJoined st id name).snd = [ClientEmit.sigOut id (SigBody.sdp offerDesc)] := rfl

theorem offersOf_handlePeerJoined (m : SocketId) (st : CoordState) (id : SocketId)
    (name : Option String) : offersOf m (handlePeerJoined st id name).snd = [(m, id)] := rfl

/-! ## Relay room-registry lemmas -/

theorem lookupRoom_addToRoom_self (rooms : List (String × List SocketId)) (r : String)
    (x : SocketId) :
    lookupRoom (addToRoom rooms r x) r =
      if x ∈ lookupRoom rooms r then lookupRoom rooms r else lookupRoom rooms r ++ [x] := by
  induction rooms with
  | nil => simp [addToRoom, lookupRoom]
  | cons kv rest ih =>
    obtain ⟨k, ms⟩ := kv
    by_cases hk : k = r
    · subst hk; by_cases hx : x ∈ ms <;> simp [addToRoom, lookupRoom, hx]
    · simp [addToRoom, lookupRoom, hk, ih]

theorem lookupRoom_addToRoom_other (rooms : List (String × List SocketId)) (r r' : String)
    (x : SocketId) (h : r' ≠ r) :
    lookupRoom (addToRoom rooms r x) r' = lookupRoom rooms r' := by
  induction rooms with
  | nil =>
    have h' : ¬ r = r' := fun e => h e.symm
    simp [addToRoom, lookupRoom, h']
  | cons kv rest ih =>
    obtain ⟨k, ms⟩ := kv
    by_cases hk : k = r
    · subst hk
      have h' : ¬ k = r' := fun e => h e.symm
      simp [addToRoom, lookupRoom, h']
    · simp only [addToRoom, if_neg hk]
      by_cases hk' : k = r' <;> simp [lookupRoom, hk', ih]

theorem mem_lookupRoom_addToRoom_self (rooms : List (String × List SocketId)) (r : String)
    (x : SocketId) : x ∈ lookupRoom (addToRoom rooms r x) r := by
  rw [lookupRoom_addToRoom_self]
  by_cases hx : x ∈ lookupRoom rooms r <;> simp [hx]

theorem nodup_lookupRoom_addToRoom (rooms : List (String × List SocketId)) (r : String)
    (x : SocketId) (h : (lookupRoom rooms r).Nodup) :
    (lookupRoom (addToRoom rooms r x) r).Nodup := by
  rw [lookupRoom_addToRoom_self]
  by_cases hx : x ∈ lookupRoom rooms r
  · simpa [hx] using h
  · simp [hx, List.nodup_append, h, List.disjoint_singleton]

/-! ## Ordering of joins and offer counting -/

theorem beforeIn_mem_right (a b : SocketId) :
    ∀ (L : List SocketId), beforeIn L a b = true → b ∈ L := by
  intro L
  induction L with
  | nil => intro h; simp [beforeIn] at h
  | cons x xs ih =>
    intro h
    by_cases hx : x = a
    · subst hx
      have heq : beforeIn (x :: xs) x b = decide (b ∈ xs) := by
        show (if x = x then decide (b ∈ xs) else beforeIn xs x b) = decide (b ∈ xs)
        rw [if_pos rfl]
      rw [heq] at h
      exact List.mem_cons_of_mem _ (of_decide_eq_true h)
    · simp only [beforeIn, if_neg hx] at h
      exact List.mem_cons_of_mem _ (ih h)

theorem beforeIn_not_mem (a b : SocketId) (L : List SocketId) (h : b ∉ L) :
    beforeIn L a b = false := by
  cases hbe : beforeIn L a b with
  | false => rfl
  | true => exact absurd (beforeIn_mem_right a b L hbe) h

theorem beforeIn_asymm (a b : SocketId) :
    ∀ (L : List SocketId), L.Nodup → beforeIn L a b = true → beforeIn L b a = false := by
  intro L
  induction L with
  | nil => intro _ h; simp [beforeIn] at h
  | cons x xs ih =>
    intro hnd h
    have hx_not : x ∉ xs := (List.nodup_cons.mp hnd).1
    have hnd' : xs.Nodup := (List.nodup_cons.mp hnd).2
    by_cases hxa : x = a
    · subst hxa
      have heq : beforeIn (x :: xs) x b = decide (b ∈ xs) := by
        show (if x = x then decide (b ∈ xs) else beforeIn xs x b) = decide (b ∈ xs)
        rw [if_pos rfl]
      rw [heq] at h
      replace h : b ∈ xs := of_decide_eq_true h
      by_cases hxb : x = b
      · exact absurd (hxb ▸ h) hx_not
      · simp only [beforeIn, if_neg hxb]
        exact beforeIn_not_mem b x xs hx_not
    · simp only [beforeIn, if_neg hxa] at h
      by_cases hxb : x = b
      · exact absurd (hxb ▸ beforeIn_mem_right a b xs h) hx_not
      · simp only [beforeIn, if_neg hxb]
        exact ih hnd' h

theorem pairCount_append (l1 l2 : List (SocketId × SocketId)) (x y : SocketId) :
    pairCount (l1 ++ l2) x y = pairCount l1 x y + pairCount l2 x y := by
  simp [pairCount, List.countP_append]

theorem countP_eq_of_nodup (x : SocketId) :
    ∀ (ms : List SocketId), ms.Nodup →
      ms.countP (fun m => decide (m = x)) = if x ∈ ms then 1 else 0 := by
  intro ms
  induction ms with
  | nil => intro _; simp
  | cons m rest ih =>
    intro h
    have hm : m ∉ rest := (List.nodup_cons.mp h).1
    have h' : rest.Nodup := (List.nodup_cons.mp h).2
    by_cases hmx : m = x
    · subst hmx
      simp [List.countP_cons, ih h', hm]
    · have hxm : ¬ x = m := fun e => hmx e.symm
      simp [List.countP_cons, ih h', hmx, hxm, List.mem_cons]

theorem pairCount_map_pair (p x y : SocketId) (ms : List SocketId) :
    pairCount (ms.map (fun m => (m, p))) x y =
      if p = y then ms.countP (fun m => decide (m = x)) else 0 := by
  by_cases hpy : p = y
  · subst hpy
    rw [if_pos rfl]
    have hfun : ((fun q => decide (q = (x, p))) ∘ (fun m : SocketId => (m, p)))
        = fun m => decide (m = x) := by
      funext m
      simp [Function.comp, Prod.ext_iff]
    simp only [pairCount, List.countP_map, hfun]
  · have hfun : ((fun q => decide (q = (x, y))) ∘ (fun m : SocketId => (m, p)))
        = fun _ => false := by
      funext m
      simp [Function.comp, Prod.ext_iff, hpy]
    simp [pairCount, List.countP_map, hfun, if_neg hpy]

theorem offersSpec_pairCount (x y : SocketId) :
    ∀ (L ms : List SocketId), (ms ++ L).Nodup →
      pairCount (offersSpec ms L) x y =
        if y ∈ L ∧ (x ∈ ms ∨ beforeIn L x y = true) then 1 else 0 := by
  intro L
  induction L with
  | nil => intro ms h; simp [offersSpec, pairCount]
  | cons p rest ih =>
    intro ms h
    have h' : ((ms ++ [p]) ++ rest).Nodup := by
      rw [List.append_assoc]; simpa using h
    have hcomp := List.nodup_append.mp h
    have hmsnd : ms.Nodup := hcomp.1
    have hpms : p ∉ ms := fun hp => (hcomp.2.2 hp) (List.mem_cons_self p rest)
    have hprest : p ∉ rest := (List.nodup_cons.mp hcomp.2.1).1
    rw [offersSpec, pairCount_append, pairCount_map_pair, ih (ms ++ [p]) h']
    by_cases hpy : p = y
    · subst hpy
      rw [if_pos rfl, countP_eq_of_nodup x ms hmsnd]
      have hrec : ¬ (p ∈ rest ∧ (x ∈ ms ++ [p] ∨ beforeIn rest x p = true)) :=
        fun hc => hprest hc.1
      rw [if_neg hrec]
      by_cases hpx : p = x
      · subst hpx
        have hbpp : beforeIn (p :: rest) p p = false := by
          show (if p = p then decide (p ∈ rest) else beforeIn rest p p) = false
          rw [if_pos rfl]
          exact decide_eq_false hprest
        simp [hpms, hbpp]
      · have hxp : ¬ x = p := fun e => hpx e.symm
        have hbe : beforeIn (p :: rest) x p = beforeIn rest x p := by
          simp [beforeIn, hpx]
        rw [beforeIn_not_mem x p rest hprest] at hbe
        by_cases hxms : x ∈ ms
        · simp [hxms, hbe]
        · simp [hxms, hbe]
    · rw [if_neg hpy]
      have hyp : ¬ y = p := fun e => hpy e.symm
      by_cases hpx : p = x
      · subst hpx
        have hxms : (p ∈ ms ++ [p]) := by simp
        have hbe : beforeIn (p :: rest) p y = decide (y ∈ rest) := by
          simp [beforeIn]
        by_cases hyr : y ∈ rest
        · simp [hyr, hxms, hbe, List.mem_cons, hyp]
        · simp [hyr, hxms, hbe, List.mem_cons, hyp]
      · have hxp : ¬ x = p := fun e => hpx e.symm
        have hxms : (x ∈ ms ++ [p]) ↔ x ∈ ms := by
          simp [List.mem_append, hxp]
        have hbe : beforeIn (p :: rest) x y = beforeIn rest x y := by
          simp [beforeIn, hpx]
        by_cases hyr : y ∈ rest <;> by_cases hxm : x ∈ ms <;>
          simp [hbe, hxms, hyr, hxm, List.mem_cons, hyp]

/-! ## Join-protocol bridge lemmas -/

theorem handleJoin_members (st : RelayState) (p : SocketId) (roomId : String)
    (n l : Option String) (hp : p ∉ roomMembers st roomId) :
    roomMembers (handleJoin st p roomId n l).state roomId
      = roomMembers st roomId ++ [p] := by
  simp only [handleJoin, roomMembers, setData]
  rw [lookupRoom_addToRoom_self]
  simp only [roomMembers] at hp
  rw [if_neg hp]

theorem handleJoin_noticeTargets (st : RelayState) (p : SocketId) (roomId : String)
    (n l : Option String) (hp : p ∉ roomMembers st roomId) :
    (handleJoin st p roomId n l).noticeTargets = roomMembers st roomId := by
  have hmem : roomMembers (handleJoin st p roomId n l).state roomId
      = roomMembers st roomId ++ [p] := handleJoin_members st p roomId n l hp
  have htar : (handleJoin st p roomId n l).noticeTargets
      = (roomMembers (handleJoin st p roomId n l).state roomId).filter
          (fun id => decide (id ≠ p)) := rfl
  rw [htar, hmem, List.filter_append]
  have h1 : (roomMembers st roomId).filter (fun id => decide (id ≠ p))
      = roomMembers st roomId := by
    rw [List.filter_eq_self]
    intro a ha
    exact decide_eq_true (fun e => hp (e ▸ ha))
  have h2 : ([p].filter (fun id => decide (id ≠ p))) = [] := by simp
  rw [h1, h2, List.append_nil]

theorem nodup_handleJoin_members (st : RelayState) (p : SocketId) (roomId : String)
    (n l : Option String) (hp : p ∉ roomMembers st roomId)
    (hnd : (roomMembers st roomId).Nodup) :
    (roomMembers (handleJoin st p roomId n l).state roomId).Nodup := by
  rw [handleJoin_members st p roomId n l hp]
  simp [List.nodup_append, hnd, List.disjoint_singleton, hp]

theorem roomMembers_onConnect (st : RelayState) (p : SocketId) (roomId : String)
    (hrp : roomId ≠ p) :
    roomMembers (onConnect st p) roomId = roomMembers st roomId := by
  simp only [onConnect, roomMembers]
  exact lookupRoom_addToRoom_other st.rooms p roomId p hrp

theorem stepMembers_keys (targets : List SocketId) (p : SocketId) :
    ∀ (coords : List (SocketId × CoordState)),
      (stepMembers coords targets p).fst.map Prod.fst = coords.map Prod.fst := by
  intro coords
  induction coords with
  | nil => rfl
  | cons mc rest ih =>
    obtain ⟨m, cm⟩ := mc
    by_cases hm : m ∈ targets <;> simp [stepMembers, hm, ih]

theorem stepMembers_offers (targets : List SocketId) (p : SocketId) :
    ∀ (coords : List (SocketId × CoordState)),
      (∀ k ∈ coords.map Prod.fst, k ∈ targets) →
      (stepMembers coords targets p).snd = (coords.map Prod.fst).map (fun m => (m, p)) := by
  intro coords
  induction coords with
  | nil => intro _; rfl
  | cons mc rest ih =>
    intro hall
    obtain ⟨m, cm⟩ := mc
    have hm : m ∈ targets := hall m (by simp)
    have hrest : ∀ k ∈ rest.map Prod.fst, k ∈ targets := fun k hk => hall k (by simp [hk])
    simp [stepMembers, hm, offersOf_handlePeerJoined, ih hrest]

theorem processJoin_members (roomId : String) (w : World) (p : SocketId)
    (hp : p ∉ roomMembers w.relay roomId) (hrp : roomId ≠ p) :
    roomMembers (processJoin roomId w p).relay roomId
      = roomMembers w.relay roomId ++ [p] := by
  have h0 := roomMembers_onConnect w.relay p roomId hrp
  have h1 : p ∉ roomMembers (onConnect w.relay p) roomId := by rw [h0]; exact hp
  have h2 := handleJoin_members (onConnect w.relay p) p roomId none none h1
  show roomMembers (handleJoin (onConnect w.relay p) p roomId none none).state roomId
      = roomMembers w.relay roomId ++ [p]
  rw [h2, h0]

theorem processJoin_keys (roomId : String) (w : World) (p : SocketId)
    (hkeys : w.coords.map Prod.fst = roomMembers w.relay roomId) :
    (processJoin roomId w p).coords.map Prod.fst
      = w.coords.map Prod.fst ++ [p] := by
  show ((stepMembers w.coords
      (handleJoin (onConnect w.relay p) p roomId none none).noticeTargets p).fst
        ++ [(p, (handlePeers {} (handleJoin (onConnect w.relay p) p roomId none none).roster).fst)]).map
          Prod.fst = w.coords.map Prod.fst ++ [p]
  rw [List.map_append, stepMembers_keys]
  rfl

theorem processJoin_offerLog (roomId : String) (w : World) (p : SocketId)
    (hkeys : w.coords.map Prod.fst = roomMembers w.relay roomId)
    (hp : p ∉ roomMembers w.relay roomId) (hrp : roomId ≠ p) :
    (processJoin roomId w p).offerLog
      = w.offerLog ++ (roomMembers w.relay roomId).map (fun m => (m, p)) := by
  have h0 := roomMembers_onConnect w.relay p roomId hrp
  have h1 : p ∉ roomMembers (onConnect w.relay p) roomId := by rw [h0]; exact hp
  have htar : (handleJoin (onConnect w.relay p) p roomId none none).noticeTargets
      = roomMembers w.relay roomId := by
    rw [handleJoin_noticeTargets (onConnect w.relay p) p roomId none none h1, h0]
  have hall : ∀ k ∈ w.coords.map Prod.fst,
      k ∈ (handleJoin (onConnect w.relay p) p roomId none none).noticeTargets := by
    intro k hk
    rw [htar]
    rw [hkeys] at hk
    exact hk
  have hstep := stepMembers_offers
    ((handleJoin (onConnect w.relay p) p roomId none none).noticeTargets) p w.coords hall
  have hjoiner : offersOf p
      (handlePeers {} (handleJoin (onConnect w.relay p) p roomId none none).roster).snd
        = [] := by
    rw [handlePeers_snd]
    rfl
  show w.offerLog ++ offersOf p
      (handlePeers {} (handleJoin (onConnect w.relay p) p roomId none none).roster).snd
      ++ (stepMembers w.coords
        (handleJoin (onConnect w.relay p) p roomId none none).noticeTargets p).snd
      = w.offerLog ++ (roomMembers w.relay roomId).map (fun m => (m, p))
  rw [hjoiner, hstep, hkeys, List.append_nil]

theorem runJoinsFrom_offerLog (roomId : String) :
    ∀ (L : List SocketId) (w : World),
      w.coords.map Prod.fst = roomMembers w.relay roomId →
      (roomMembers w.relay roomId).Nodup →
      (∀ p ∈ L, p ∉ roomMembers w.relay roomId) →
      L.Nodup → roomId ∉ L →
      (runJoinsFrom roomId w L).offerLog
        = w.offerLog ++ offersSpec (roomMembers w.relay roomId) L := by
  intro L
  induction L with
  | nil => intro w _ _ _ _ _; simp [runJoinsFrom, offersSpec]
  | cons p rest ih =>
    intro w hkeys hnd hfresh hLnd hroom
    have hpmem : p ∉ roomMembers w.relay roomId := hfresh p (List.mem_cons_self p rest)
    have hrp : roomId ≠ p := fun e => hroom (e ▸ List.mem_cons_self p rest)
    have hmem' := processJoin_members roomId w p hpmem hrp
    have hkeys' : (processJoin roomId w p).coords.map Prod.fst
        = roomMembers (processJoin roomId w p).relay roomId := by
      rw [processJoin_keys roomId w p hkeys, hmem', hkeys]
    have hnd' : (roomMembers (processJoin roomId w p).relay roomId).Nodup := by
      rw [hmem']
      simp [List.nodup_append, hnd, List.disjoint_singleton, hpmem]
    have hfresh' : ∀ q ∈ rest, q ∉ roomMembers (processJoin roomId w p).relay roomId := by
      intro q hq
      rw [hmem']
      intro hmem
      rcases List.mem_append.mp hmem with hq1 | hq1
      · exact hfresh q (List.mem_cons_of_mem p hq) hq1
      · have : q = p := by simpa using hq1
        exact (List.nodup_cons.mp hLnd).1 (this ▸ hq)
    have hLnd' : rest.Nodup := (List.nodup_cons.mp hLnd).2
    have hroom' : roomId ∉ rest := fun hr => hroom (List.mem_cons_of_mem p hr)
    have hstep : runJoinsFrom roomId w (p :: rest)
        = runJoinsFrom roomId (processJoin roomId w p) rest := rfl
    rw [hstep, ih (processJoin roomId w p) hkeys' hnd' hfresh' hLnd' hroom',
      processJoin_offerLog roomId w p hkeys hpmem hrp, hmem', offersSpec,
      List.append_assoc]

/-- Offers logged by a full run from the empty system. -/
theorem runJoins_offerLog (roomId : String) (L : List SocketId)
    (hLnd : L.Nodup) (hroom : roomId ∉ L) :
    (runJoins roomId L).offerLog = offersSpec [] L := by
  have h := runJoinsFrom_offerLog roomId L {} rfl (by simp [roomMembers, lookupRoom])
    (by intro p _; simp [roomMembers, lookupRoom]) hLnd hroom
  simpa [runJoins] using h

/-! ## Further handler lemmas -/

theorem handlePeerJoined_keys (s : CoordState) (p : SocketId) (nm : Option String) :
    (handlePeerJoined s p nm).fst.pcMap.map Prod.fst
      = if (alookup s.pcMap p).isSome then s.pcMap.map Prod.fst
        else s.pcMap.map Prod.fst ++ [p] := by
  simp only [handlePeerJoined, connectToPeer, if_pos, setLocalDescFor, updatePC_keys]
  exact ensurePC_keys _ p

theorem handleSignalIn_offer_keys (s : CoordState) (p : SocketId) :
    (handleSignalIn s p (SigBody.sdp offerDesc)).fst.pcMap.map Prod.fst
      = (ensurePC s p).pcMap.map Prod.fst := by
  show (setLocalDescFor (setRemoteDescFor (ensurePC s p) p offerDesc) p answerDesc).pcMap.map
      Prod.fst = (ensurePC s p).pcMap.map Prod.fst
  simp only [setLocalDescFor, setRemoteDescFor, updatePC_keys]

theorem handleSignalIn_offer_snd (s : CoordState) (p : SocketId) :
    (handleSignalIn s p (SigBody.sdp offerDesc)).snd
      = [ClientEmit.sigOut p (SigBody.sdp answerDesc)] := rfl

theorem firstTrackOfKind_map_flip (k : TrackKind) :
    ∀ (ts : List MediaTrack),
      firstTrackOfKind
          (ts.map (fun t => if t.kind = k then { t with enabled := !t.enabled } else t)) k
        = (firstTrackOfKind ts k).map (fun t => { t with enabled := !t.enabled }) := by
  intro ts
  induction ts with
  | nil => rfl
  | cons t rest ih =>
    by_cases hkind : t.kind = k
    · simp [firstTrackOfKind, hkind]
    · simpa [firstTrackOfKind, hkind] using ih

/-! ## Claim theorems -/

/-- C1: in any interleaving of joins (a duplicate-free join order not clashing
with the room's name), each pair of participants produces exactly one offer,
sent by the earlier joiner upon the later joiner's join notice; the later
joiner never offers toward the earlier one, and a joiner processing the
roster snapshot creates a session toward every listed member while emitting
nothing. -/
theorem c1_single_offer_per_pair (roomId : String) (L : List SocketId) (a b : SocketId)
    (hLnd : L.Nodup) (hroom : roomId ∉ L) (hab : beforeIn L a b = true) :
    pairCount (runJoins roomId L).offerLog a b = 1 ∧
    pairCount (runJoins roomId L).offerLog b a = 0 ∧
    (∀ (st : CoordState) (roster : List PeerInfo),
      (handlePeers st roster).snd = [] ∧
      ∀ pid ∈ roster.map PeerInfo.id,
        (alookup (handlePeers st roster).fst.pcMap pid).isSome = true) := by
  have hlog := runJoins_offerLog roomId L hLnd hroom
  have hb : b ∈ L := beforeIn_mem_right a b L hab
  have hba : beforeIn L b a = false := beforeIn_asymm a b L hLnd hab
  refine ⟨?_, ?_, ?_⟩
  · rw [hlog, offersSpec_pairCount a b L [] (by simpa using hLnd)]
    simp [hb, hab]
  · rw [hlog, offersSpec_pairCount b a L [] (by simpa using hLnd)]
    simp [hba]
  · intro st roster
    exact ⟨handlePeers_snd st roster, fun pid hpid => handlePeers_lookup st roster pid hpid⟩

/-- Witness for C1 at the join order A, B, C in room "room". -/
theorem c1_single_offer_per_pair_witness :
    (["A", "B", "C"] : List SocketId).Nodup ∧
    "room" ∉ (["A", "B", "C"] : List SocketId) ∧
    beforeIn ["A", "B", "C"] "A" "B" = true ∧
    (pairCount (runJoins "room" ["A", "B", "C"]).offerLog "A" "B" = 1 ∧
     pairCount (runJoins "room" ["A", "B", "C"]).offerLog "B" "A" = 0 ∧
     (∀ (st : CoordState) (roster : List PeerInfo),
       (handlePeers st roster).snd = [] ∧
       ∀ pid ∈ roster.map PeerInfo.id,
         (alookup (handlePeers st roster).fst.pcMap pid).isSome = true)) :=
  ⟨by decide, by decide, by decide,
    c1_single_offer_per_pair "room" ["A", "B", "C"] "A" "B" (by decide) (by decide) (by decide)⟩

/-- C2: the claim says a candidate delivered before the remote description is
set is buffered and present once the remote description is set. The code
instead applies it immediately inside `try {} catch {}`: at the failing input
(candidate 7 from a, then a's offer) the candidate is absent from the
connection object even after the remote description is set and the answer
sent, while candidates delivered after the offer are all present. -/
theorem c2_early_candidate_dropped :
    (alookup afterOffer.fst.pcMap "a").map PC.addedCandidates = some [] ∧
    (alookup afterOffer.fst.pcMap "a").map PC.remoteDesc = some (some offerDesc) ∧
    afterOffer.snd = [ClientEmit.sigOut "a" (SigBody.sdp answerDesc)] ∧
    (alookup afterLateCands.pcMap "a").map PC.addedCandidates = some [1, 2, 3] := by decide

/-- C3 counterexample: delivering the same join notice twice keeps a single
session in the map, but the duplicate is not ignored — the handler runs
`connectToPeer(id, true)` again and emits a second offer toward p,
re-initiating negotiation on the existing session. -/
theorem c3_counterexample :
    joinedTwice.fst.pcMap.map Prod.fst = ["p"] ∧
    joinedTwice.snd = [ClientEmit.sigOut "p" (SigBody.sdp offerDesc)] ∧
    joinedTwice.snd ≠ [] := by decide

/-- C3 amended: lookup-or-create is idempotent on the session map — a
duplicate join notice or duplicate offer never creates a second entry — but
the duplicate is reprocessed on the existing session: a repeated join notice
emits a fresh offer and a repeated offer emits a fresh answer. -/
theorem c3_amended_lookup_or_create (st : CoordState) (p : SocketId)
    (nm nm2 : Option String) :
    (handlePeerJoined (handlePeerJoined st p nm).fst p nm2).fst.pcMap.map Prod.fst
      = (handlePeerJoined st p nm).fst.pcMap.map Prod.fst ∧
    (handlePeerJoined (handlePeerJoined st p nm).fst p nm2).snd
      = [ClientEmit.sigOut p (SigBody.sdp offerDesc)] ∧
    (handleSignalIn (handlePeerJoined st p nm).fst p (SigBody.sdp offerDesc)).fst.pcMap.map
        Prod.fst = (handlePeerJoined st p nm).fst.pcMap.map Prod.fst ∧
    (handleSignalIn (handlePeerJoined st p nm).fst p (SigBody.sdp offerDesc)).snd
      = [ClientEmit.sigOut p (SigBody.sdp answerDesc)] := by
  have h1 : (alookup (handlePeerJoined st p nm).fst.pcMap p).isSome :=
    connectToPeer_lookup_isSome _ p true
  refine ⟨?_, handlePeerJoined_snd _ p nm2, ?_, handleSignalIn_offer_snd _ p⟩
  · rw [handlePeerJoined_keys _ p nm2, if_pos h1]
  · rw [handleSignalIn_offer_keys _ p, ensurePC_of_isSome _ p h1]

/-- C4: the departure notice for p closes p's connection object, drops the
session, releases the remote stream and removes p's roster entry inside one
atomic event-queue step, so no observable state has the session gone while p
is still listed. -/
theorem c4_cascade_teardown (st : CoordState) (p : SocketId) :
    alookup (handlePeerLeft st p).pcMap p = none ∧
    alookup (handlePeerLeft st p).remoteStreams p = none ∧
    (∀ pe ∈ (handlePeerLeft st p).peers, pe.id ≠ p) ∧
    ((alookup st.pcMap p).isSome → p ∈ (handlePeerLeft st p).closedLog) := by
  refine ⟨alookup_removeKey_self st.pcMap p, alookup_removeKey_self st.remoteStreams p, ?_, ?_⟩
  · intro pe hpe
    have h := List.of_mem_filter hpe
    simpa using h
  · intro h
    obtain ⟨pc, hpc⟩ := Option.isSome_iff_exists.mp h
    show p ∈ (handlePeerLeft st p).closedLog
    simp only [handlePeerLeft]
    rw [hpc]
    simp

/-- Witness for C4 at a coordinator holding a session, stream and entry for p. -/
theorem c4_cascade_teardown_witness :
    alookup (handlePeerLeft coordWithP "p").pcMap "p" = none ∧
    alookup (handlePeerLeft coordWithP "p").remoteStreams "p" = none ∧
    (∀ pe ∈ (handlePeerLeft coordWithP "p").peers, pe.id ≠ "p") ∧
    ((alookup coordWithP.pcMap "p").isSome → "p" ∈ (handlePeerLeft coordWithP "p").closedLog) :=
  c4_cascade_teardown coordWithP "p"

/-- C5: a relay join registers the caller in the room and produces a roster
snapshot listing exactly the other current members, by id with their stored
attributes, with the caller absent and no member duplicated (given the room
set held no duplicates, as socket.io's Set-backed rooms guarantee); the join
notice goes to every current member except the caller. -/
theorem c5_join_roster (st : RelayState) (sock : SocketId) (roomId : String)
    (nm lg : Option String) (hnd : (roomMembers st roomId).Nodup) :
    sock ∈ roomMembers (handleJoin st sock roomId nm lg).state roomId ∧
    (handleJoin st sock roomId nm lg).roster.map PeerInfo.id
      = (roomMembers (handleJoin st sock roomId nm lg).state roomId).filter
          (fun i => decide (i ≠ sock)) ∧
    (∀ e ∈ (handleJoin st sock roomId nm lg).roster, e.id ≠ sock) ∧
    ((handleJoin st sock roomId nm lg).roster.map PeerInfo.id).Nodup ∧
    (∀ e ∈ (handleJoin st sock roomId nm lg).roster,
      e = peerInfoOf (handleJoin st sock roomId nm lg).state e.id) ∧
    (handleJoin st sock roomId nm lg).noticeTargets
      = (roomMembers (handleJoin st sock roomId nm lg).state roomId).filter
          (fun i => decide (i ≠ sock)) := by
  have hmem' : (roomMembers (handleJoin st sock roomId nm lg).state roomId).Nodup := by
    show (lookupRoom (addToRoom st.rooms roomId sock) roomId).Nodup
    exact nodup_lookupRoom_addToRoom st.rooms roomId sock hnd
  have hmap : (handleJoin st sock roomId nm lg).roster.map PeerInfo.id
      = (roomMembers (handleJoin st sock roomId nm lg).state roomId).filter
          (fun i => decide (i ≠ sock)) := by
    show (((roomMembers (handleJoin st sock roomId nm lg).state roomId).filter
        (fun i => decide (i ≠ sock))).map
          (peerInfoOf (handleJoin st sock roomId nm lg).state)).map PeerInfo.id = _
    rw [List.map_map]
    have hfun : (PeerInfo.id ∘ peerInfoOf (handleJoin st sock roomId nm lg).state)
        = fun i => i := by
      funext i; rfl
    rw [hfun, List.map_id']
  refine ⟨?_, hmap, ?_, ?_, ?_, rfl⟩
  · exact mem_lookupRoom_addToRoom_self st.rooms roomId sock
  · intro e he
    obtain ⟨i, hi, rfl⟩ := List.mem_map.mp he
    have := List.of_mem_filter hi
    simpa [peerInfoOf] using this
  · rw [hmap]
    exact List.Nodup.filter _ hmem'
  · intro e he
    obtain ⟨i, hi, rfl⟩ := List.mem_map.mp he
    rfl

/-- Witness for C5: c joins room "r" already holding a and b. -/
theorem c5_join_roster_witness :
    (roomMembers relayAB "r").Nodup ∧
    ("c" ∈ roomMembers (handleJoin relayAB "c" "r" (some "Cy") (some "de")).state "r" ∧
     (handleJoin relayAB "c" "r" (some "Cy") (some "de")).roster.map PeerInfo.id
       = (roomMembers (handleJoin relayAB "c" "r" (some "Cy") (some "de")).state "r").filter
           (fun i => decide (i ≠ "c")) ∧
     (∀ e ∈ (handleJoin relayAB "c" "r" (some "Cy") (some "de")).roster, e.id ≠ "c") ∧
     ((handleJoin relayAB "c" "r" (some "Cy") (some "de")).roster.map PeerInfo.id).Nodup ∧
     (∀ e ∈ (handleJoin relayAB "c" "r" (some "Cy") (some "de")).roster,
       e = peerInfoOf (handleJoin relayAB "c" "r" (some "Cy") (some "de")).state e.id) ∧
     (handleJoin relayAB "c" "r" (some "Cy") (some "de")).noticeTargets
       = (roomMembers (handleJoin relayAB "c" "r" (some "Cy") (some "de")).state "r").filter
           (fun i => decide (i ≠ "c"))) :=
  ⟨by decide, c5_join_roster relayAB "c" "r" (some "Cy") (some "de") (by decide)⟩

/-- C6: a relayed chat message leaves the relay state unchanged and is
delivered to exactly the other current room members — never back to its
sender. -/
theorem c6_no_self_echo (st : RelayState) (sock : SocketId) (roomId : String)
    (msg lg : String) :
    (handleChat st sock roomId msg lg).fst = st ∧
    sock ∉ (handleChat st sock roomId msg lg).snd.targets ∧
    (∀ m ∈ roomMembers st roomId, m ≠ sock →
      m ∈ (handleChat st sock roomId msg lg).snd.targets) ∧
    (∀ m ∈ (handleChat st sock roomId msg lg).snd.targets, m ∈ roomMembers st roomId) := by
  refine ⟨rfl, ?_, ?_, ?_⟩
  · intro h
    have := List.of_mem_filter h
    simp at this
  · intro m hm hne
    exact List.mem_filter.mpr ⟨hm, decide_eq_true hne⟩
  · intro m hm
    exact (List.mem_filter.mp hm).1

/-- Witness for C6: b chats in room "r" of relayAB. -/
theorem c6_no_self_echo_witness :
    (handleChat relayAB "b" "r" "hi" "fr").fst = relayAB ∧
    "b" ∉ (handleChat relayAB "b" "r" "hi" "fr").snd.targets ∧
    (∀ m ∈ roomMembers relayAB "r", m ≠ "b" →
      m ∈ (handleChat relayAB "b" "r" "hi" "fr").snd.targets) ∧
    (∀ m ∈ (handleChat relayAB "b" "r" "hi" "fr").snd.targets, m ∈ roomMembers relayAB "r") :=
  c6_no_self_echo relayAB "b" "r" "hi" "fr"

/-- C7 counterexample: in `relayRoomX` no connected participant has identifier
"x", yet a signal targeting "x" is not dropped — `io.to(targetId)` resolves
the room named "x", so the envelope reaches its member a. -/
theorem c7_counterexample :
    (∀ s ∈ relayRoomX.connected, s ≠ "x") ∧
    (handleSignal relayRoomX "b" "x" 0).snd.targets = ["a"] ∧
    (handleSignal relayRoomX "b" "x" 0).snd.targets ≠ [] := by decide

/-- C7 amended: the relay forwards `{from, data}` unmodified to the members of
the room named targetId and never changes relay state; when that room is
exactly the target's personal room the envelope reaches exactly that one
participant, and when no such room exists it is silently dropped. -/
theorem c7_amended_room_delivery (st : RelayState) (sock : SocketId)
    (targetId : String) (d : Nat) :
    (handleSignal st sock targetId d).fst = st ∧
    (handleSignal st sock targetId d).snd.fromId = sock ∧
    (handleSignal st sock targetId d).snd.data = d ∧
    (roomMembers st targetId = [targetId] →
      (handleSignal st sock targetId d).snd.targets = [targetId]) ∧
    (roomMembers st targetId = [] →
      (handleSignal st sock targetId d).snd.targets = []) := by
  exact ⟨rfl, rfl, rfl, fun h => h, fun h => h⟩

/-- Witness for C7 amended: unicast to the connected b, and a drop for the
unknown identifier "z", in `relayRoomX`. -/
theorem c7_amended_room_delivery_witness :
    ((handleSignal relayRoomX "a" "b" 3).fst = relayRoomX ∧
     (handleSignal relayRoomX "a" "b" 3).snd.fromId = "a" ∧
     (handleSignal relayRoomX "a" "b" 3).snd.data = 3 ∧
     (roomMembers relayRoomX "b" = ["b"] →
       (handleSignal relayRoomX "a" "b" 3).snd.targets = ["b"]) ∧
     (roomMembers relayRoomX "b" = [] →
       (handleSignal relayRoomX "a" "b" 3).snd.targets = [])) ∧
    roomMembers relayRoomX "b" = ["b"] ∧
    roomMembers relayRoomX "z" = [] ∧
    (handleSignal relayRoomX "a" "z" 3).snd.targets = [] :=
  ⟨c7_amended_room_delivery relayRoomX "a" "b" 3, by decide, by decide, by decide⟩

/-- C8 counterexample: a peer-state broadcast for the listed peer a carrying
micEnabled = true and camEnabled = true leaves a's roster entry with its old
flags — the entry does not end up carrying the broadcast values. -/
theorem c8_counterexample :
    (handlePeerState coordMicOff "a" true true).peers
      = [{ id := "a", name := some "Alice",
           micEnabled := some false, camEnabled := some false }] ∧
    (handlePeerState coordMicOff "a" true true).peers.map RemotePeer.micEnabled
      ≠ [some true] := by decide

/-- C8 amended: a peer-state broadcast leaves the coordinator state entirely
unchanged: the handler maps a matching roster entry to an identical copy
(dropping the broadcast mic/cam values, which are "reserved for future
display"), and an id matching no entry also changes nothing. -/
theorem c8_amended_peer_state_noop (st : CoordState) (id : SocketId)
    (micEnabled camEnabled : Bool) :
    handlePeerState st id micEnabled camEnabled = st := by
  have hfun : (fun (pe : RemotePeer) =>
      if pe.id = id then { pe with name := pe.name, stream := pe.stream } else pe)
        = fun pe => pe := by
    funext pe
    by_cases h : pe.id = id
    · rw [if_pos h]
    · rw [if_neg h]
  show { st with peers := st.peers.map _ } = st
  rw [hfun, List.map_id']

/-- C9: after a media-acquisition denial the coordinator still reaches the
ready state with no local stream and a surfaced (recoverable) permission
error; joining the room still succeeds, and a session created afterwards
adds no local tracks to its connection object yet still sends its offer. -/
theorem c9_media_denial_recoverable (st : CoordState) (roomId name lang : String)
    (pid : SocketId) (hn : name ≠ "") (hl : lang ≠ "")
    (hfresh : alookup st.pcMap pid = none) :
    (onMediaError st).ready = true ∧
    (onMediaError st).localStream = none ∧
    (onMediaError st).permissionError.isSome = true ∧
    (createPCForPeer (onMediaError st).localStream).localTracks = [] ∧
    (joinRoom (onMediaError st) roomId name lang).fst.joined = true ∧
    (joinRoom (onMediaError st) roomId name lang).snd
      = [ClientEmit.joinOut roomId name lang] ∧
    (alookup (connectToPeer (onMediaError st) pid true).fst.pcMap pid).map PC.localTracks
      = some [] ∧
    (connectToPeer (onMediaError st) pid true).snd
      = [ClientEmit.sigOut pid (SigBody.sdp offerDesc)] := by
  have hcond : ¬ (name = "" ∨ lang = "") := fun hc => hc.elim hn hl
  have h0 : alookup (onMediaError st).pcMap pid = none := hfresh
  have h1 : alookup (ensurePC (onMediaError st) pid).pcMap pid
      = some (createPCForPeer none) := by
    unfold ensurePC
    rw [h0]
    rw [alookup_append_none _ _ _ h0]
    simp [alookup, onMediaError]
  refine ⟨rfl, rfl, rfl, rfl, ?_, ?_, ?_, rfl⟩
  · simp [joinRoom, hcond]
  · simp [joinRoom, hcond]
  · show (alookup (setLocalDescFor (ensurePC (onMediaError st) pid) pid
        offerDesc).pcMap pid).map PC.localTracks = some []
    simp [setLocalDescFor, alookup_updatePC, h1, createPCForPeer]

/-- Witness for C9: a fresh coordinator, name "Nia", language "en", peer q. -/
theorem c9_media_denial_recoverable_witness :
    ("Nia" ≠ "") ∧ ("en" ≠ "") ∧ alookup ({} : CoordState).pcMap "q" = none ∧
    ((onMediaError {}).ready = true ∧
     (onMediaError {}).localStream = none ∧
     (onMediaError {}).permissionError.isSome = true ∧
     (createPCForPeer (onMediaError {}).localStream).localTracks = [] ∧
     (joinRoom (onMediaError {}) "r" "Nia" "en").fst.joined = true ∧
     (joinRoom (onMediaError {}) "r" "Nia" "en").snd
       = [ClientEmit.joinOut "r" "Nia" "en"] ∧
     (alookup (connectToPeer (onMediaError {}) "q" true).fst.pcMap "q").map PC.localTracks
       = some [] ∧
     (connectToPeer (onMediaError {}) "q" true).snd
       = [ClientEmit.sigOut "q" (SigBody.sdp offerDesc)]) :=
  ⟨by decide, by decide, by decide,
    c9_media_denial_recoverable {} "r" "Nia" "en" "q" (by decide) (by decide) (by decide)⟩

/-- C10: toggling a local track flips the track flags but the `state` event
emitted in the same call carries the mic/cam values captured before the
toggle (the stale closure variables), so the broadcast lags the actual local
media state by one toggle: after an audio toggle whose pre-state was in sync,
the stored flag is the negation of the value just broadcast. -/
theorem c10_stale_state_broadcast (st : CoordState) (ts : List MediaTrack)
    (h : st.localStream = some ts) :
    (∀ kind, (toggleTrack st kind).snd
      = [ClientEmit.stateOut st.localMicEnabled st.localCamEnabled]) ∧
    (∀ t, firstTrackOfKind ts TrackKind.audio = some t →
      t.enabled = st.localMicEnabled →
      (toggleTrack st TrackKind.audio).fst.localMicEnabled = !st.localMicEnabled) := by
  constructor
  · intro kind
    cases kind <;> simp [toggleTrack, h]
  · intro t ht hen
    have h2 := firstTrackOfKind_map_flip TrackKind.audio ts
    rw [ht] at h2
    simp [toggleTrack, h, h2, hen]

/-- Witness for C10 at a coordinator with an enabled audio and video track. -/
theorem c10_stale_state_broadcast_witness :
    coordWithTracks.localStream
      = some [⟨TrackKind.audio, true⟩, ⟨TrackKind.video, true⟩] ∧
    ((∀ kind, (toggleTrack coordWithTracks kind).snd
       = [ClientEmit.stateOut coordWithTracks.localMicEnabled
           coordWithTracks.localCamEnabled]) ∧
     (∀ t, firstTrackOfKind [⟨TrackKind.audio, true⟩, ⟨TrackKind.video, true⟩]
         TrackKind.audio = some t →
       t.enabled = coordWithTracks.localMicEnabled →
       (toggleTrack coordWithTracks TrackKind.audio).fst.localMicEnabled
         = !coordWithTracks.localMicEnabled)) :=
  ⟨by decide, c10_stale_state_broadcast coordWithTracks
    [⟨TrackKind.audio, true⟩, ⟨TrackKind.video, true⟩] (by decide)⟩

end Supichat
